import Mathlib

/-!
Verification of the orchestration core of `examples/inspect-all-oci-images.py`:
the reference normalizer, the result store (load / merge / save), the resume
filter, the inspection task with its search fallback, and the timing behaviour
of the dispatcher loop.  Python strings are modelled as `List Char` (wrapped in
`String` at the interfaces), Python dicts as insertion-ordered association
lists, and JSON result objects as records carrying exactly the fields the
orchestrator reads.
-/

namespace OciInspect

/-! ## Python string primitives -/

/-- Python `s.lower()`, character-wise lowering. -/
def pyLower (s : List Char) : List Char := s.map Char.toLower

/-- Python `pat in s` (substring containment). -/
def pyContains (pat : List Char) : List Char → Bool
  | [] => pat.isEmpty
  | c :: rest => pat.isPrefixOf (c :: rest) || pyContains pat rest

/-- Fuelled core of Python `s.replace(old, new)`: scan left to right, replace
each non-overlapping occurrence of `old` by `new`.  The fuel is the length of
the scanned list, which never runs out for the nonempty patterns the source
uses. -/
def pyReplaceAllF (old new : List Char) : Nat → List Char → List Char
  | 0, s => s
  | _ + 1, [] => []
  | fuel + 1, c :: rest =>
    if old.isPrefixOf (c :: rest) then
      new ++ pyReplaceAllF old new fuel (List.drop (old.length - 1) rest)
    else
      c :: pyReplaceAllF old new fuel rest

/-- Python `s.replace(old, new)` (all occurrences). -/
def pyReplaceAll (old new s : List Char) : List Char :=
  pyReplaceAllF old new s.length s

/-- Python `s.replace(old, new, 1)` (first occurrence only). -/
def pyReplaceOnce (old new : List Char) : List Char → List Char
  | [] => []
  | c :: rest =>
    if old.isPrefixOf (c :: rest) then
      new ++ List.drop (old.length - 1) rest
    else
      c :: pyReplaceOnce old new rest

/-! ## Reference normalizer

Source (duplicated verbatim at `load_existing_results`,
`save_results_incremental` and `filter_images_to_inspect`):

    normalized_ref = original_ref.replace('docker://', '').replace('docker.io/', '')
    if normalized_ref.startswith('library/'):
        normalized_ref = normalized_ref.replace('library/', '', 1)
-/

/-- The reference normalizer of the source: strip every `docker://` and
`docker.io/` occurrence, then drop one leading `library/`. -/
def normalizeRef (r : String) : String :=
  let s1 := pyReplaceAll "docker://".data [] r.data
  let s2 := pyReplaceAll "docker.io/".data [] s1
  let s3 := if "library/".data.isPrefixOf s2 then pyReplaceOnce "library/".data [] s2 else s2
  String.mk s3

/-! ## Result objects and the result store

A result object is the JSON dict produced by one inspection; the orchestrator
reads only the keys modelled here (`_original_image_ref`, `image.name`,
`_error`, `_error_message`, `_found_image_ref`); the rest of the payload is
abstracted into `payload`.  A result dict is always nonempty, so Python
truthiness of a looked-up result coincides with `Option.isSome`. -/

structure PyResult where
  /-- The `_original_image_ref` key, when present. -/
  origRef : Option String := none
  /-- `result.get('image', \x7b\x7d).get('name', '')`. -/
  imageName : String := ""
  /-- The `_error` key (error kind), when present. -/
  err : Option String := none
  /-- The `_error_message` key, when present. -/
  errMsg : Option String := none
  /-- The `_found_image_ref` key, when present. -/
  foundRef : Option String := none
  /-- Abstraction of all remaining payload fields. -/
  payload : String := ""
deriving DecidableEq, Repr

/-- A Python dict keyed by strings: an insertion-ordered association list in
which each key occurs at most once (maintained by `dictSet`). -/
abbrev Store := List (String × PyResult)

/-- Python `d.get(k)`. -/
def dictGet (d : Store) (k : String) : Option PyResult :=
  match d with
  | [] => none
  | (k', v) :: rest => if k' = k then some v else dictGet rest k

/-- Python `d[k] = v`: update in place when the key exists, else append. -/
def dictSet (d : Store) (k : String) (v : PyResult) : Store :=
  match d with
  | [] => [(k, v)]
  | (k', v') :: rest => if k' = k then (k, v) :: rest else (k', v') :: dictSet rest k v

/-- Python `list(d.values())`. -/
def valuesOf (d : Store) : List PyResult := d.map Prod.snd

/-- The original reference of a result, as both `load_existing_results` and
`save_results_incremental` compute it: `_original_image_ref` when present and
nonempty (truthy), else `image.name`. -/
def effOrig (r : PyResult) : String :=
  match r.origRef with
  | some s => if s = "" then r.imageName else s
  | none => r.imageName

/-- Record one result in the lookup dict, shared loop body of
`load_existing_results` and `save_results_incremental`: skip a result with a
falsy original reference, else store it under its normalized key and then
under its raw original-reference key. -/
def storeOne (lookup : Store) (r : PyResult) : Store :=
  let o := effOrig r
  if o = "" then lookup
  else dictSet (dictSet lookup (normalizeRef o) r) o r

/-- Pure core of `load_existing_results`: build the lookup dict from the list
of result objects persisted in the output file. -/
def build_lookup (results : List PyResult) : Store :=
  results.foldl storeOne []

/-- The merge loop of `save_results_incremental`: new results overwrite the
entries at their normalized and raw keys of the existing lookup dict. -/
def merge_results (newResults : List PyResult) (existing : Store) : Store :=
  newResults.foldl storeOne existing

/-- Pure core of `save_results_incremental`: merge the new results into the
lookup dict loaded from the prior file content and serialize the dict values. -/
def save_results_incremental (newResults : List PyResult) (priorFile : List PyResult) :
    List PyResult :=
  valuesOf (merge_results newResults (build_lookup priorFile))

/-- The list persisted by the final save in `main`: with `--no-resume` the
run's results are dumped as they are, otherwise they are merged into the
existing output file (lines 809-818 of the source). -/
def finalPersist (noResume : Bool) (results priorFile : List PyResult) : List PyResult :=
  if noResume then results else save_results_incremental results priorFile

/-! ## Resume filter (`filter_images_to_inspect`) -/

/-- The four components returned by `filter_images_to_inspect`. -/
structure FilterResult where
  images_to_inspect : List String
  successful_skipped : Nat
  failed_skipped : Nat
  failed_retrying : Nat
deriving DecidableEq, Repr

/-- `existing_results.get(normalized_ref) or existing_results.get(image_ref)`:
result dicts are nonempty (truthy), so Python `or` is option fallback here. -/
def lookupExisting (existing : Store) (ref : String) : Option PyResult :=
  match dictGet existing (normalizeRef ref) with
  | some r => some r
  | none => dictGet existing ref

/-- `filter_images_to_inspect` (lines 457-505): partition the candidate list
against the existing results; a found result with an `_error` key is retried
exactly when `retry_failed` is set, a found result without one is always
skipped, an absent one is always inspected. -/
def filter_images_to_inspect (existing : Store) (retryFailed : Bool) :
    List String → FilterResult
  | [] => ⟨[], 0, 0, 0⟩
  | ref :: rest =>
    let acc := filter_images_to_inspect existing retryFailed rest
    match lookupExisting existing ref with
    | some ex =>
      if ex.err.isSome then
        if retryFailed then
          ⟨ref :: acc.images_to_inspect, acc.successful_skipped,
            acc.failed_skipped, acc.failed_retrying + 1⟩
        else
          ⟨acc.images_to_inspect, acc.successful_skipped,
            acc.failed_skipped + 1, acc.failed_retrying⟩
      else
        ⟨acc.images_to_inspect, acc.successful_skipped + 1,
          acc.failed_skipped, acc.failed_retrying⟩
    | none =>
      ⟨ref :: acc.images_to_inspect, acc.successful_skipped,
        acc.failed_skipped, acc.failed_retrying⟩

/-- The per-reference decision of `filter_images_to_inspect`: a reference is
inspected when nothing was found for it, or when the found result has an
`_error` key and `retry_failed` is set. -/
def includeDecision (existing : Store) (retryFailed : Bool) (ref : String) : Bool :=
  match lookupExisting existing ref with
  | some ex => ex.err.isSome && retryFailed
  | none => true

/-- Truthiness of the error check `'_error' in existing` on a looked-up
result: `false` when nothing was found. -/
def foundHasError (o : Option PyResult) : Bool :=
  match o with
  | some ex => ex.err.isSome
  | none => false

/-! ## Inspection task (`inspect_oci_image`)

The external inspection subprocess is an oracle `insp : String → InspCall`
(the `--platform` argument is constant across the recursive re-attempt, so it
is folded into the oracle); the Docker Hub search collaborator is an oracle
`srch : String → Option String`.  The model returns the produced result
object together with the number of search calls and of inspection calls
issued. -/

/-- Outcome of one `subprocess.run` invocation of `inspect-ha-image.py`, as
the `try` block of `inspect_oci_image` distinguishes them. -/
inductive InspCall where
  /-- The subprocess exits zero and its stdout parses as JSON. -/
  | ok (parsed : PyResult)
  /-- `subprocess.TimeoutExpired`. -/
  | timeoutExpired
  /-- `subprocess.CalledProcessError` with the given stderr text. -/
  | calledProcessError (stderr : String)
  /-- The subprocess exits zero but stdout is not valid JSON. -/
  | jsonDecodeError (msg : String)
  /-- Any other exception, with its text. -/
  | otherException (msg : String)

/-- The rate-limit classification of an error message. -/
def isRateLimitedMsg (errorMsg : String) : Bool :=
  pyContains "toomanyrequests".data (pyLower errorMsg.data)
  || pyContains "rate limit".data (pyLower errorMsg.data)
  || pyContains "unauthenticated pull rate limit".data (pyLower errorMsg.data)

/-- The not-found classification of an error message. -/
def isNotFoundMsg (errorMsg : String) : Bool :=
  pyContains "requested access to the resource is denied".data errorMsg.data
  || pyContains "manifest not found".data errorMsg.data
  || pyContains "manifest unknown".data errorMsg.data
  || pyContains "reading manifest".data errorMsg.data

/-- The hint appended to a generic inspection failure message. -/
def computeHint (errorMsg : String) (shouldSearch : Bool) : String :=
  if pyContains "requested access to the resource is denied".data errorMsg.data
      || pyContains "manifest not found".data errorMsg.data then
    (if shouldSearch then ""
     else " (Hint: Image might not exist or might need a namespace, e.g., username/image)")
  else if pyContains "invalid reference format".data errorMsg.data then
    " (Hint: Image reference format might be incorrect)"
  else ""

/-- `inspect_oci_image` (lines 268-396): run the inspection subprocess,
classify its failure, and on a not-found failure of a namespace-less
reference with `auto_search` enabled, call the search fallback once and
re-attempt inspection of the found reference with `auto_search=False`.
Returns the result object, the number of search calls and the number of
inspection calls. -/
def inspect_oci_image (insp : String → InspCall) (srch : String → Option String)
    (autoSearch : Bool) (ref : String) : PyResult × Nat × Nat :=
  match insp ref with
  | InspCall.ok parsed =>
      ({ parsed with origRef := some ref }, 0, 1)
  | InspCall.timeoutExpired =>
      ({ origRef := some ref, err := some "timeout",
         errMsg := some "Inspection timed out after 5 minutes" }, 0, 1)
  | InspCall.calledProcessError stderr =>
      let errorMsg : String :=
        if stderr = "" then "CalledProcessError" else String.mk (stderr.data.take 500)
      if isRateLimitedMsg errorMsg then
        ({ origRef := some ref, err := some "rate_limit",
           errMsg := some "Docker Hub rate limit reached." }, 0, 1)
      else
        let isNamespaceMissing := ! pyContains "/".data ref.data
        if hs : (autoSearch && (isNamespaceMissing && isNotFoundMsg errorMsg)) = true then
          match srch ref with
          | some found =>
            if found ≠ "" ∧ found ≠ ref then
              let inner := inspect_oci_image insp srch false found
              if inner.1.err = none then
                ({ inner.1 with origRef := some ref, foundRef := some found },
                  1 + inner.2.1, 1 + inner.2.2)
              else
                match inner.1.errMsg with
                | some m =>
                  if pyContains "manifest unknown".data (pyLower m.data)
                      || pyContains "manifest not found".data (pyLower m.data) then
                    ({ origRef := some ref, foundRef := some found,
                       err := some "no_latest_tag",
                       errMsg := some "found image has no latest tag or no manifest for the platform" },
                      1 + inner.2.1, 1 + inner.2.2)
                  else
                    ({ origRef := some ref, err := some "inspection_failed",
                       errMsg := some (errorMsg ++ computeHint errorMsg true) },
                      1 + inner.2.1, 1 + inner.2.2)
                | none =>
                    ({ origRef := some ref, err := some "inspection_failed",
                       errMsg := some (errorMsg ++ computeHint errorMsg true) },
                      1 + inner.2.1, 1 + inner.2.2)
            else
              ({ origRef := some ref, err := some "inspection_failed",
                 errMsg := some (errorMsg ++ computeHint errorMsg true) }, 1, 1)
          | none =>
              ({ origRef := some ref, err := some "inspection_failed",
                 errMsg := some (errorMsg ++ computeHint errorMsg true) }, 1, 1)
        else
          ({ origRef := some ref, err := some "inspection_failed",
             errMsg := some (errorMsg ++ computeHint errorMsg false) }, 0, 1)
  | InspCall.jsonDecodeError m =>
      ({ origRef := some ref, err := some "json_parse_failed", errMsg := some m }, 0, 1)
  | InspCall.otherException m =>
      ({ origRef := some ref, err := some "unexpected_error", errMsg := some m }, 0, 1)
termination_by autoSearch.toNat
decreasing_by
  simp only [Bool.and_eq_true] at hs
  rw [hs.1]
  decide

/-! ## Dispatcher timing model (`inspect_all_images`, lines 507-657)

`inspect_all_images` submits one future per image to a
`ThreadPoolExecutor(max_workers=m)` up front; each of the `m` pool workers
starts the next queued task as soon as it is free, so the start time of the
i-th submitted task is the earliest worker-free time at submission order i.
The `delay_between_requests` sleep sits in the main thread's `as_completed`
drain loop (lines 576-581): after a future completes, the main thread sleeps
until at least `delay` has passed since `last_request_time` and only then
processes the result.  Time is modelled in abstract ticks. -/

/-- Minimum of a list of ticks (the earliest worker-free time). -/
def minOfList : List Nat → Nat
  | [] => 0
  | x :: xs => xs.foldl Nat.min x

/-- Replace the first occurrence of `tgt` in the list by `v`. -/
def replaceFirst : List Nat → Nat → Nat → List Nat
  | [], _, _ => []
  | x :: xs, tgt, v => if x = tgt then v :: xs else x :: replaceFirst xs tgt v

/-- Occupy the earliest-free worker until tick `v`. -/
def replaceMin (free : List Nat) (v : Nat) : List Nat :=
  replaceFirst free (minOfList free) v

/-- Start times of the queued tasks given the worker-free times: each task
starts on the earliest-free worker, which is then busy for the task's
duration. -/
def startsAux : List Nat → List Nat → List Nat
  | _, [] => []
  | free, d :: rest =>
    let t := minOfList free
    t :: startsAux (replaceMin free (t + d)) rest

/-- Start times of the inspection calls when all tasks are submitted up front
to a pool of `m` workers (all free at tick 0): no rate gating participates in
a task start. -/
def startTimes (m : Nat) (durations : List Nat) : List Nat :=
  startsAux (List.replicate m 0) durations

/-- Number of inspection-call starts inside the window from `t` (inclusive)
of duration `w`. -/
def countStartsIn (starts : List Nat) (t w : Nat) : Nat :=
  (starts.filter (fun s => decide (t ≤ s) && decide (s < t + w))).length

/-- The main thread's drain loop over the completion events (in completion
order), carrying the current time and `last_request_time`: when the delay is
positive it sleeps out the remainder of the delay since the last processed
completion before handling the next one. -/
def drainAux (delay : Nat) : Nat → Nat → List Nat → List Nat
  | _, _, [] => []
  | cur, last, c :: rest =>
    let receive := max cur c
    if 0 < delay then
      let h := if receive < last + delay then last + delay else receive
      h :: drainAux delay h h rest
    else
      receive :: drainAux delay receive last rest

/-- Handling times of the completion events in the drain loop, started at
tick 0. -/
def drainTimes (delay : Nat) (completions : List Nat) : List Nat :=
  drainAux delay 0 0 completions

/-- Consecutive elements are at least `delay` apart. -/
def delaySpaced (delay : Nat) : List Nat → Prop
  | [] => True
  | [_] => True
  | a :: b :: rest => a + delay ≤ b ∧ delaySpaced delay (b :: rest)

/-! ## Persistence of the result file (`save_results_incremental`, lines 452-455)

The write `with open(output_file, 'w') ... json.dump(merged_results, f)` is
modelled as a sequence of primitive file operations: opening with mode `w`
truncates the target in place, then the serialized text is written.  A crash
after `k` operations leaves the file in the state reached by the first `k`. -/

/-- A primitive file operation of the save path. -/
inductive FileOp where
  /-- `open(output_file, 'w')`: truncate the target in place. -/
  | truncate
  /-- Write the serialized text to the (truncated) file. -/
  | writeContent (s : String)
deriving DecidableEq, Repr

/-- Effect of one file operation on the file content. -/
def applyFileOp (content : String) : FileOp → String
  | FileOp.truncate => ""
  | FileOp.writeContent s => content ++ s

/-- File content after running a list of operations over the prior content. -/
def runFileOps (prior : String) (ops : List FileOp) : String :=
  ops.foldl applyFileOp prior

/-- The operations of one save: truncate, then write the new serialization. -/
def saveFileOps (data : String) : List FileOp :=
  [FileOp.truncate, FileOp.writeContent data]

/-- File content if the process crashes after the first `k` operations of a
save over the prior content. -/
def fileAfterCrash (prior data : String) (k : Nat) : String :=
  runFileOps prior (List.take k (saveFileOps data))

/-- Well-formedness of a lookup dict built by `storeOne` steps: every entry
was recorded under the normalized or the raw spelling of its own (truthy)
original reference. -/
def goodStore (d : Store) : Prop :=
  ∀ k r', dictGet d k = some r' →
    effOrig r' ≠ "" ∧ (normalizeRef (effOrig r') = k ∨ effOrig r' = k)

/-! ## Concrete fixtures used by witnesses and counterexamples -/

/-- A persisted failure outcome recorded under the un-normalized spelling
`docker://alpine`. -/
def oldFailExample : PyResult :=
  { origRef := some "docker://alpine", err := some "inspection_failed",
    errMsg := some "boom" }

/-- A fresh success outcome for the same image under its normalized spelling. -/
def newSuccExample : PyResult :=
  { origRef := some "alpine" }

/-- A persisted success outcome. -/
def succExample : PyResult :=
  { origRef := some "alpine:latest" }

/-- A persisted failure outcome. -/
def failExample : PyResult :=
  { origRef := some "badimg", err := some "inspection_failed",
    errMsg := some "boom" }

/-! ## Theorems -/

/-! ### Helper lemmas about replacement -/

theorem pyReplaceAllF_of_not_contains (old new : List Char) :
    ∀ (fuel : Nat) (s : List Char), pyContains old s = false →
      pyReplaceAllF old new fuel s = s := by
  intro fuel
  induction fuel with
  | zero => intro s _; rfl
  | succ n ih =>
    intro s h
    cases s with
    | nil => rfl
    | cons c rest =>
      simp only [pyContains, Bool.or_eq_false_iff] at h
      simp only [pyReplaceAllF, h.1, Bool.false_eq_true, if_false]
      rw [ih rest h.2]

theorem pyReplaceAll_of_not_contains (old new s : List Char)
    (h : pyContains old s = false) : pyReplaceAll old new s = s :=
  pyReplaceAllF_of_not_contains old new s.length s h

/-- A reference already free of every token the normalizer strips is a fixed
point of the normalizer. -/
theorem normalizeRef_fixed_of_clean (s : String)
    (h1 : pyContains "docker://".data s.data = false)
    (h2 : pyContains "docker.io/".data s.data = false)
    (h3 : "library/".data.isPrefixOf s.data = false) :
    normalizeRef s = s := by
  simp only [normalizeRef]
  rw [pyReplaceAll_of_not_contains _ _ _ h1, pyReplaceAll_of_not_contains _ _ _ h2, h3]
  simp

/-! ### Claim C3: idempotence of normalization -/

/-- Claim C3, counterexample: normalization is not idempotent as claimed.  On
the reference `library/library/x` one application yields `library/x`, and a
second application strips the remaining `library/` and yields `x`. -/
theorem normalize_not_idempotent :
    ¬ (normalizeRef (normalizeRef "library/library/x") = normalizeRef "library/library/x") := by
  decide

/-- Claim C3 (amended): normalization is idempotent on every reference whose
normalized form carries no residual stripped token, i.e. whose normal form
contains no `docker://` or `docker.io/` substring and does not start with
`library/`; a reference with a nested default-namespace or scheme token (such
as `library/library/x`) escapes this hypothesis and violates idempotence. -/
theorem normalize_idempotent_of_clean (r : String)
    (h1 : pyContains "docker://".data (normalizeRef r).data = false)
    (h2 : pyContains "docker.io/".data (normalizeRef r).data = false)
    (h3 : "library/".data.isPrefixOf (normalizeRef r).data = false) :
    normalizeRef (normalizeRef r) = normalizeRef r :=
  normalizeRef_fixed_of_clean (normalizeRef r) h1 h2 h3

/-- Witness for the amended claim C3 at the reference `docker://library/alpine`. -/
theorem normalize_idempotent_of_clean_witness :
    (pyContains "docker://".data (normalizeRef "docker://library/alpine").data = false
      ∧ pyContains "docker.io/".data (normalizeRef "docker://library/alpine").data = false
      ∧ "library/".data.isPrefixOf (normalizeRef "docker://library/alpine").data = false)
    ∧ normalizeRef (normalizeRef "docker://library/alpine")
        = normalizeRef "docker://library/alpine" :=
  ⟨by decide,
    normalize_idempotent_of_clean "docker://library/alpine" (by decide) (by decide) (by decide)⟩

/-! ### Dictionary lemmas -/

theorem dictGet_dictSet_self (d : Store) (k : String) (v : PyResult) :
    dictGet (dictSet d k v) k = some v := by
  induction d with
  | nil => simp [dictGet, dictSet]
  | cons p rest ih =>
    obtain ⟨k', v'⟩ := p
    by_cases h : k' = k <;> simp [dictGet, dictSet, h, ih]

theorem dictGet_dictSet_ne (d : Store) (k : String) (v : PyResult) (k' : String)
    (h : k' ≠ k) : dictGet (dictSet d k v) k' = dictGet d k' := by
  have hk : ¬ (k = k') := fun hh => h hh.symm
  induction d with
  | nil => simp [dictGet, dictSet, hk]
  | cons p rest ih =>
    obtain ⟨k₀, v₀⟩ := p
    by_cases h0 : k₀ = k
    · subst h0
      simp [dictGet, dictSet, hk]
    · simp [dictGet, dictSet, h0, ih]

/-! ### Claim C2: merge overwrite semantics -/

/-- Claim C2, counterexample: after loading a store holding a failure recorded
under the raw spelling `docker://alpine` and merging a new success whose
original reference is the normalized spelling `alpine`, the store holds two
live entries whose keys normalize to `alpine` — the stale alias entry at key
`docker://alpine` still carries the old failure — refuting uniqueness per
normalized key. -/
theorem merge_leaves_stale_alias_entry :
    (List.filter (fun p => normalizeRef p.1 == "alpine")
        (merge_results [newSuccExample] (build_lookup [oldFailExample]))).length = 2
    ∧ dictGet (merge_results [newSuccExample] (build_lookup [oldFailExample]))
        "docker://alpine" = some oldFailExample
    ∧ oldFailExample ≠ newSuccExample := by
  decide

/-- Claim C2 (amended): merging a new outcome overwrites the store entries at
the outcome's normalized key and at its raw original-reference key with the
new value, and leaves the entry at every other key untouched; uniqueness holds
per dictionary key, not per normalized key — an entry recorded under a
different alias key that normalizes to the same key stays live alongside the
new entry. -/
theorem merge_overwrites_new_outcome_keys (store : Store) (r : PyResult) (k : String)
    (h : effOrig r ≠ "")
    (hk1 : k ≠ normalizeRef (effOrig r)) (hk2 : k ≠ effOrig r) :
    dictGet (merge_results [r] store) (normalizeRef (effOrig r)) = some r
    ∧ dictGet (merge_results [r] store) (effOrig r) = some r
    ∧ dictGet (merge_results [r] store) k = dictGet store k := by
  have hone : merge_results [r] store
      = dictSet (dictSet store (normalizeRef (effOrig r)) r) (effOrig r) r := by
    simp [merge_results, storeOne, h]
  refine ⟨?_, ?_, ?_⟩
  · rw [hone]
    by_cases ho : effOrig r = normalizeRef (effOrig r)
    · rw [← ho]
      exact dictGet_dictSet_self _ _ _
    · rw [dictGet_dictSet_ne _ _ _ _ (fun hh => ho hh.symm)]
      exact dictGet_dictSet_self _ _ _
  · rw [hone]
    exact dictGet_dictSet_self _ _ _
  · rw [hone, dictGet_dictSet_ne _ _ _ _ hk2, dictGet_dictSet_ne _ _ _ _ hk1]

/-- Witness for the amended claim C2: merging the success for `alpine` into the
loaded store updates the keys `alpine` and leaves the unrelated key `other`
untouched. -/
theorem merge_overwrites_new_outcome_keys_witness :
    (effOrig newSuccExample ≠ ""
      ∧ "other" ≠ normalizeRef (effOrig newSuccExample)
      ∧ "other" ≠ effOrig newSuccExample)
    ∧ dictGet (merge_results [newSuccExample] (build_lookup [oldFailExample]))
        (normalizeRef (effOrig newSuccExample)) = some newSuccExample
    ∧ dictGet (merge_results [newSuccExample] (build_lookup [oldFailExample]))
        (effOrig newSuccExample) = some newSuccExample
    ∧ dictGet (merge_results [newSuccExample] (build_lookup [oldFailExample])) "other"
        = dictGet (build_lookup [oldFailExample]) "other" :=
  ⟨by decide,
    merge_overwrites_new_outcome_keys (build_lookup [oldFailExample]) newSuccExample
      "other" (by decide) (by decide) (by decide)⟩

/-! ### Resume filter lemmas -/

/-- The to-inspect list on a cons step: the head is kept exactly when the
per-reference decision includes it. -/
theorem filter_cons (existing : Store) (retryFailed : Bool) (r0 : String)
    (rest : List String) :
    (filter_images_to_inspect existing retryFailed (r0 :: rest)).images_to_inspect
      = if includeDecision existing retryFailed r0 then
          r0 :: (filter_images_to_inspect existing retryFailed rest).images_to_inspect
        else (filter_images_to_inspect existing retryFailed rest).images_to_inspect := by
  cases hl : lookupExisting existing r0 with
  | none => simp [filter_images_to_inspect, includeDecision, hl]
  | some ex0 =>
    cases hi : ex0.err.isSome <;> cases retryFailed <;>
      simp [filter_images_to_inspect, includeDecision, hl, hi]

/-- A reference whose looked-up result is a success, or a failure while
`retry_failed` is off, is never placed in the to-inspect list. -/
theorem not_mem_filter_of_skip (existing : Store) (retryFailed : Bool) (ref : String)
    (ex : PyResult) (hex : lookupExisting existing ref = some ex)
    (hskip : (ex.err.isSome && retryFailed) = false) :
    ∀ l, ref ∉ (filter_images_to_inspect existing retryFailed l).images_to_inspect := by
  intro l
  induction l with
  | nil => simp [filter_images_to_inspect]
  | cons r0 rest ih =>
    rw [filter_cons]
    by_cases h0 : r0 = ref
    · have hdec : includeDecision existing retryFailed r0 = false := by
        rw [h0]; simp only [includeDecision, hex]; exact hskip
      simp only [hdec, Bool.false_eq_true, if_false]
      exact ih
    · by_cases hd : includeDecision existing retryFailed r0 = true
      · rw [if_pos hd]
        intro hmem
        rcases List.mem_cons.mp hmem with h | h
        · exact h0 h.symm
        · exact ih h
      · rw [if_neg hd]
        exact ih

/-- A reference whose looked-up result is absent, or a failure while
`retry_failed` is on, lands in the to-inspect list whenever it occurs in the
candidate list. -/
theorem mem_filter_of_include (existing : Store) (retryFailed : Bool) (ref : String)
    (hinc : lookupExisting existing ref = none
      ∨ foundHasError (lookupExisting existing ref) = true ∧ retryFailed = true) :
    ∀ l, ref ∈ l → ref ∈ (filter_images_to_inspect existing retryFailed l).images_to_inspect := by
  have hdec : includeDecision existing retryFailed ref = true := by
    cases hinc with
    | inl hnone => simp [includeDecision, hnone]
    | inr hfr =>
      obtain ⟨herr, hrf⟩ := hfr
      cases hl : lookupExisting existing ref with
      | none => rw [hl] at herr; simp [foundHasError] at herr
      | some ex =>
        rw [hl] at herr
        simp only [foundHasError] at herr
        simp [includeDecision, hl, herr, hrf]
  intro l
  induction l with
  | nil => intro hmem; simp at hmem
  | cons r0 rest ih =>
    intro hmem
    rw [filter_cons]
    by_cases h0 : r0 = ref
    · have hd : includeDecision existing retryFailed r0 = true := by rw [h0]; exact hdec
      rw [if_pos hd, h0]
      exact List.mem_cons_self ref _
    · have hrest : ref ∈ rest := by
        rcases List.mem_cons.mp hmem with h | h
        · exact absurd h.symm h0
        · exact h
      have hgoal := ih hrest
      by_cases hd : includeDecision existing retryFailed r0 = true
      · rw [if_pos hd]
        exact List.mem_cons_of_mem _ hgoal
      · rw [if_neg hd]
        exact hgoal

/-! ### Claim C5: resume filter partition policy -/

/-- Claim C5: for every candidate list, store and retry flag, a reference
found (by normalized or raw key) with a success outcome is never inspected; a
reference found with a failure outcome is inspected exactly when
`retry_failed` is set; a reference not found is always inspected. -/
theorem filter_partition_policy (existing : Store) (retryFailed : Bool)
    (allImages : List String) (ref : String) (href : ref ∈ allImages) :
    ((lookupExisting existing ref).isSome = true →
        foundHasError (lookupExisting existing ref) = false →
        ref ∉ (filter_images_to_inspect existing retryFailed allImages).images_to_inspect)
    ∧ (foundHasError (lookupExisting existing ref) = true →
        (ref ∈ (filter_images_to_inspect existing retryFailed allImages).images_to_inspect
          ↔ retryFailed = true))
    ∧ (lookupExisting existing ref = none →
        ref ∈ (filter_images_to_inspect existing retryFailed allImages).images_to_inspect) := by
  refine ⟨?_, ?_, ?_⟩
  · intro hsome herr
    cases hl : lookupExisting existing ref with
    | none => rw [hl] at hsome; simp at hsome
    | some ex =>
      rw [hl] at herr
      simp only [foundHasError] at herr
      exact not_mem_filter_of_skip existing retryFailed ref ex hl
        (by simp [herr]) allImages
  · intro herr
    constructor
    · intro hmem
      by_contra hrf
      have hrf' : retryFailed = false := by
        cases retryFailed
        · rfl
        · exact absurd rfl hrf
      cases hl : lookupExisting existing ref with
      | none => rw [hl] at herr; simp [foundHasError] at herr
      | some ex =>
        exact not_mem_filter_of_skip existing retryFailed ref ex hl
          (by simp [hrf']) allImages hmem
    · intro hrf
      exact mem_filter_of_include existing retryFailed ref (Or.inr ⟨herr, hrf⟩) allImages href
  · intro hnone
    exact mem_filter_of_include existing retryFailed ref (Or.inl hnone) allImages href

/-- Witness for claim C5: against a store holding a success for
`alpine:latest` and a failure for `badimg`, the reference `badimg` with
`retry_failed` on is re-inspected, per the partition policy. -/
theorem filter_partition_policy_witness :
    ((lookupExisting (build_lookup [succExample, failExample]) "badimg").isSome = true →
        foundHasError (lookupExisting (build_lookup [succExample, failExample]) "badimg") = false →
        "badimg" ∉ (filter_images_to_inspect (build_lookup [succExample, failExample]) true
          ["alpine:latest", "badimg", "newimg"]).images_to_inspect)
    ∧ (foundHasError (lookupExisting (build_lookup [succExample, failExample]) "badimg") = true →
        ("badimg" ∈ (filter_images_to_inspect (build_lookup [succExample, failExample]) true
            ["alpine:latest", "badimg", "newimg"]).images_to_inspect
          ↔ true = true))
    ∧ (lookupExisting (build_lookup [succExample, failExample]) "badimg" = none →
        "badimg" ∈ (filter_images_to_inspect (build_lookup [succExample, failExample]) true
          ["alpine:latest", "badimg", "newimg"]).images_to_inspect) :=
  filter_partition_policy (build_lookup [succExample, failExample]) true
    ["alpine:latest", "badimg", "newimg"] "badimg" (by decide)

/-! ### Claim C9: resume filter counters -/

/-- Claim C9: the resume filter's counters are a complete accounting — the
skipped-success count plus the skipped-failure count plus the size of the
to-inspect list equals the size of the candidate list, and the retrying count
never exceeds the to-inspect size. -/
theorem filter_counters_complete (existing : Store) (retryFailed : Bool)
    (allImages : List String) :
    (filter_images_to_inspect existing retryFailed allImages).successful_skipped
        + (filter_images_to_inspect existing retryFailed allImages).failed_skipped
        + (filter_images_to_inspect existing retryFailed allImages).images_to_inspect.length
      = allImages.length
    ∧ (filter_images_to_inspect existing retryFailed allImages).failed_retrying
        ≤ (filter_images_to_inspect existing retryFailed allImages).images_to_inspect.length := by
  induction allImages with
  | nil => simp [filter_images_to_inspect]
  | cons r0 rest ih =>
    obtain ⟨ih1, ih2⟩ := ih
    cases hl : lookupExisting existing r0 with
    | none => simp [filter_images_to_inspect, hl]; omega
    | some ex =>
      cases he : ex.err.isSome <;>
        cases retryFailed <;>
        simp [filter_images_to_inspect, hl, he] <;>
        omega

/-! ### Claim C10: resume filter preserves input order -/

/-- Claim C10: the to-inspect list returned by the resume filter is a
subsequence of the candidate list — selected references appear unchanged, in
the same relative order, with nothing inserted. -/
theorem filter_preserves_order (existing : Store) (retryFailed : Bool)
    (allImages : List String) :
    List.Sublist
      (filter_images_to_inspect existing retryFailed allImages).images_to_inspect
      allImages := by
  induction allImages with
  | nil => simp [filter_images_to_inspect]
  | cons r0 rest ih =>
    rw [filter_cons]
    by_cases hd : includeDecision existing retryFailed r0 = true
    · rw [if_pos hd]
      exact List.Sublist.cons₂ r0 ih
    · rw [if_neg hd]
      exact List.Sublist.cons r0 ih

/-! ### Store persistence lemmas -/

theorem dictGet_dictSet_cases (d : Store) (k : String) (v : PyResult) (k' : String)
    (r' : PyResult) (h : dictGet (dictSet d k v) k' = some r') :
    (k' = k ∧ r' = v) ∨ dictGet d k' = some r' := by
  by_cases hk : k' = k
  · subst hk
    rw [dictGet_dictSet_self] at h
    exact Or.inl ⟨rfl, (Option.some_injective _ h).symm⟩
  · rw [dictGet_dictSet_ne _ _ _ _ hk] at h
    exact Or.inr h

theorem dictGet_dictSet_isSome (d : Store) (k : String) (v : PyResult) (k' : String)
    (h : (dictGet d k').isSome = true) : (dictGet (dictSet d k v) k').isSome = true := by
  by_cases hk : k' = k
  · subst hk; rw [dictGet_dictSet_self]; rfl
  · rw [dictGet_dictSet_ne _ _ _ _ hk]; exact h

theorem storeOne_preserves_isSome (d : Store) (r : PyResult) (k : String)
    (h : (dictGet d k).isSome = true) : (dictGet (storeOne d r) k).isSome = true := by
  unfold storeOne
  by_cases ho : effOrig r = ""
  · simp [ho]; exact h
  · simp only [ho, if_false]
    exact dictGet_dictSet_isSome _ _ _ _ (dictGet_dictSet_isSome _ _ _ _ h)

theorem foldl_storeOne_isSome (results : List PyResult) (d : Store) (k : String)
    (h : (dictGet d k).isSome = true) :
    (dictGet (results.foldl storeOne d) k).isSome = true := by
  induction results generalizing d with
  | nil => exact h
  | cons r rest ih => exact ih _ (storeOne_preserves_isSome d r k h)

/-- Every result recorded during a `storeOne` fold is reachable afterwards at
both its normalized key and its raw original-reference key. -/
theorem foldl_storeOne_mem_keys (results : List PyResult) (d : Store) (r : PyResult)
    (hmem : r ∈ results) (heff : effOrig r ≠ "") :
    (dictGet (results.foldl storeOne d) (normalizeRef (effOrig r))).isSome = true
    ∧ (dictGet (results.foldl storeOne d) (effOrig r)).isSome = true := by
  induction results generalizing d with
  | nil => simp at hmem
  | cons r0 rest ih =>
    simp only [List.foldl_cons]
    rcases List.mem_cons.mp hmem with h | h
    · subst h
      constructor
      · apply foldl_storeOne_isSome
        unfold storeOne
        simp only [heff, if_false]
        by_cases hsame : effOrig r = normalizeRef (effOrig r)
        · rw [← hsame, dictGet_dictSet_self]; rfl
        · rw [dictGet_dictSet_ne _ _ _ _ (fun hh => hsame hh.symm), dictGet_dictSet_self]
          rfl
      · apply foldl_storeOne_isSome
        unfold storeOne
        simp only [heff, if_false]
        rw [dictGet_dictSet_self]
        rfl
    · exact ih (storeOne d r0) h

theorem goodStore_nil : goodStore [] := by
  intro k r' h
  simp [dictGet] at h

theorem goodStore_storeOne (d : Store) (r : PyResult) (hg : goodStore d) :
    goodStore (storeOne d r) := by
  intro k r' h
  unfold storeOne at h
  by_cases ho : effOrig r = ""
  · rw [if_pos ho] at h
    exact hg k r' h
  · rw [if_neg ho] at h
    rcases dictGet_dictSet_cases _ _ _ _ _ h with ⟨hk, hv⟩ | h2
    · subst hk; subst hv
      exact ⟨ho, Or.inr rfl⟩
    · rcases dictGet_dictSet_cases _ _ _ _ _ h2 with ⟨hk, hv⟩ | h3
      · subst hk; subst hv
        exact ⟨ho, Or.inl rfl⟩
      · exact hg k r' h3

theorem goodStore_foldl (results : List PyResult) (d : Store) (hg : goodStore d) :
    goodStore (results.foldl storeOne d) := by
  induction results generalizing d with
  | nil => exact hg
  | cons r rest ih => exact ih _ (goodStore_storeOne d r hg)

theorem dictGet_mem_valuesOf (d : Store) (k : String) (v : PyResult)
    (h : dictGet d k = some v) : v ∈ valuesOf d := by
  induction d with
  | nil => simp [dictGet] at h
  | cons p rest ih =>
    obtain ⟨k0, v0⟩ := p
    by_cases hk : k0 = k
    · simp only [dictGet, hk, if_true] at h
      simp [valuesOf, Option.some_injective _ h]
    · simp only [dictGet, hk, if_false] at h
      exact List.mem_cons_of_mem _ (ih h)

/-- Reloading the serialized values of a well-formed lookup dict recovers
every key of the dict. -/
theorem reload_preserves_keys (d : Store) (k : String) (hg : goodStore d)
    (h : (dictGet d k).isSome = true) :
    (dictGet (build_lookup (valuesOf d)) k).isSome = true := by
  obtain ⟨r', hr'⟩ := Option.isSome_iff_exists.mp h
  obtain ⟨heff, hkey⟩ := hg k r' hr'
  have hmem : r' ∈ valuesOf d := dictGet_mem_valuesOf d k r' hr'
  have hboth := foldl_storeOne_mem_keys (valuesOf d) [] r' hmem heff
  cases hkey with
  | inl hk => rw [← hk]; exact hboth.1
  | inr hk => rw [← hk]; exact hboth.2

/-! ### Claim C7: final persist covers every completed outcome -/

/-- Claim C7: the final save of a run (performed unconditionally on normal
completion, independent of the checkpoint interval) persists a store that,
when loaded back, contains an entry at the normalized key of every completed
outcome of the run — for both the overwrite (`--no-resume`) and the
merge-with-existing-file paths. -/
theorem final_persist_covers_completed_outcomes (noResume : Bool)
    (results priorFile : List PyResult) (r : PyResult)
    (hmem : r ∈ results) (heff : effOrig r ≠ "") :
    (dictGet (build_lookup (finalPersist noResume results priorFile))
      (normalizeRef (effOrig r))).isSome = true := by
  cases noResume with
  | true =>
    simp only [finalPersist, if_true]
    exact (foldl_storeOne_mem_keys results [] r hmem heff).1
  | false =>
    simp only [finalPersist, Bool.false_eq_true, if_false]
    unfold save_results_incremental
    apply reload_preserves_keys
    · exact goodStore_foldl results _ (goodStore_foldl priorFile [] goodStore_nil)
    · exact (foldl_storeOne_mem_keys results (build_lookup priorFile) r hmem heff).1

/-- Witness for claim C7: the completed success for `alpine` is retrievable
from the reloaded store after the final merge into a file that held a failure
for `docker://alpine`. -/
theorem final_persist_covers_completed_outcomes_witness :
    (dictGet (build_lookup (finalPersist false [newSuccExample] [oldFailExample]))
      (normalizeRef (effOrig newSuccExample))).isSome = true :=
  final_persist_covers_completed_outcomes false [newSuccExample] [oldFailExample]
    newSuccExample (by decide) (by decide)

/-! ### Inspection task lemmas -/

/-- With `auto_search=False` (the mode of the recursive re-attempt) the task
performs no search call and exactly one inspection call. -/
theorem inspect_oci_image_false_counts (insp : String → InspCall)
    (srch : String → Option String) (ref : String) :
    (inspect_oci_image insp srch false ref).2.1 = 0
    ∧ (inspect_oci_image insp srch false ref).2.2 = 1 := by
  unfold inspect_oci_image
  cases insp ref <;> simp
  split <;> split <;> simp

theorem inspect_false_searches (insp : String → InspCall)
    (srch : String → Option String) (ref : String) :
    (inspect_oci_image insp srch false ref).2.1 = 0 :=
  (inspect_oci_image_false_counts insp srch ref).1

theorem inspect_false_calls (insp : String → InspCall)
    (srch : String → Option String) (ref : String) :
    (inspect_oci_image insp srch false ref).2.2 = 1 :=
  (inspect_oci_image_false_counts insp srch ref).2

/-! ### Claim C6: at most one search fallback, one hop of recursion -/

/-- Claim C6: for every pair of oracles and every item, the inspection task
invokes the search collaborator at most once and issues at most two
inspection calls, and the recursive re-attempt (which runs with
`auto_search=False`) performs zero searches and exactly one inspection call —
so the task terminates after at most one fallback hop. -/
theorem search_fallback_at_most_once (insp : String → InspCall)
    (srch : String → Option String) (autoSearch : Bool) (ref : String) :
    (inspect_oci_image insp srch autoSearch ref).2.1 ≤ 1
    ∧ (inspect_oci_image insp srch autoSearch ref).2.2 ≤ 2
    ∧ (inspect_oci_image insp srch false ref).2.1 = 0
    ∧ (inspect_oci_image insp srch false ref).2.2 = 1 := by
  have h12 : (inspect_oci_image insp srch autoSearch ref).2.1 ≤ 1
      ∧ (inspect_oci_image insp srch autoSearch ref).2.2 ≤ 2 := by
    unfold inspect_oci_image
    cases insp ref <;> simp [inspect_false_searches, inspect_false_calls]
    repeat' first
    | simp [inspect_false_searches, inspect_false_calls]
    | split
  exact ⟨h12.1, h12.2, inspect_false_searches insp srch ref,
    inspect_false_calls insp srch ref⟩

/-! ### Claim C8: every outcome carries its original reference -/

/-- Claim C8: every result object returned by the inspection task — success,
every failure kind, and success obtained via the alternate reference found by
the search fallback — carries the original reference it was requested for in
its `_original_image_ref` field. -/
theorem outcome_carries_original_ref (insp : String → InspCall)
    (srch : String → Option String) (autoSearch : Bool) (ref : String) :
    (inspect_oci_image insp srch autoSearch ref).1.origRef = some ref := by
  unfold inspect_oci_image
  cases insp ref <;> simp
  repeat' first
  | simp
  | split

/-! ### Dispatcher timing lemmas -/

theorem drainAux_cons (delay cur last c : Nat) (rest : List Nat) :
    drainAux delay cur last (c :: rest)
      = if 0 < delay then
          (if max cur c < last + delay then last + delay else max cur c)
            :: drainAux delay
                (if max cur c < last + delay then last + delay else max cur c)
                (if max cur c < last + delay then last + delay else max cur c) rest
        else max cur c :: drainAux delay (max cur c) last rest := by
  rfl

theorem drainAux_spaced (delay : Nat) :
    ∀ (cs : List Nat) (cur last : Nat), delaySpaced delay (drainAux delay cur last cs) := by
  intro cs
  induction cs with
  | nil => intro cur last; simp [drainAux, delaySpaced]
  | cons c rest ih =>
    intro cur last
    rw [drainAux_cons]
    by_cases hd : 0 < delay
    · rw [if_pos hd]
      cases rest with
      | nil => simp [drainAux, delaySpaced]
      | cons c2 rest2 =>
        rw [drainAux_cons, if_pos hd]
        refine ⟨?_, ?_⟩
        · split <;> split <;> omega
        · have h2 := ih (if max cur c < last + delay then last + delay else max cur c)
            (if max cur c < last + delay then last + delay else max cur c)
          rwa [drainAux_cons, if_pos hd] at h2
    · rw [if_neg hd]
      cases rest with
      | nil => simp [delaySpaced]
      | cons c2 rest2 =>
        rw [drainAux_cons, if_neg hd]
        refine ⟨?_, ?_⟩
        · have hle := Nat.le_max_left (max cur c) c2
          omega
        · have h2 := ih (max cur c) last
          rwa [drainAux_cons, if_neg hd] at h2

/-! ### Claim C1: rate limiting of inspection-call starts -/

/-- Claim C1, counterexample: with `max_workers = 2`, two tasks of duration 10
and an interval of 5 ticks, both inspections start at tick 0, so the window of
duration 5 from tick 0 contains 2 starts — more than `5 / 5 = 1` — refuting
the claimed window bound `W / interval` and the claimed per-start admission
gate. -/
theorem rate_limit_window_bound_fails :
    startTimes 2 [10, 10] = [0, 0]
    ∧ ¬ (countStartsIn (startTimes 2 [10, 10]) 0 5 ≤ 5 / 5) := by
  decide

/-- Claim C1 (amended): the configured inter-call interval gates only the main
thread's completion-drain loop — consecutive completion handlings are at least
`delay` apart — while inspection-call starts are not gated at all: every task
is submitted to the worker pool up front, no worker reads a shared
last-admitted time before starting, and with `max_workers = 2` the first two
inspections start simultaneously at tick 0, so the number of starts in a
window is not bounded by `W / interval`. -/
theorem dispatcher_delay_gates_drain_not_starts (delay : Nat) (cs : List Nat)
    (d1 d2 : Nat) (rest : List Nat) :
    delaySpaced delay (drainTimes delay cs)
    ∧ List.take 2 (startTimes 2 (d1 :: d2 :: rest)) = [0, 0] := by
  constructor
  · exact drainAux_spaced delay cs 0 0
  · simp [startTimes, startsAux, minOfList, replaceMin, replaceFirst,
      Nat.min_self, Nat.min_zero]

/-! ### Claim C4: atomicity of the result-store save -/

/-- Claim C4, counterexample: a save interrupted right after
`open(output_file, 'w')` leaves an empty file although prior content
existed — the implementation truncates the target in place rather than
writing to a temporary location and renaming. -/
theorem save_not_atomic :
    "[oldresults]" ≠ ""
    ∧ fileAfterCrash "[oldresults]" "[newresults]" 1 = "" := by
  decide

/-- Claim C4 (amended): the save is not atomic — it opens the target with
mode `w`, truncating it in place, then writes the new serialization; a crash
between the truncation and the completed write leaves an empty file even when
prior content existed, while an uninterrupted save leaves exactly the new
serialization. -/
theorem save_truncates_then_writes (prior data : String) (_hprior : prior ≠ "") :
    fileAfterCrash prior data 1 = ""
    ∧ fileAfterCrash prior data (saveFileOps data).length = data :=
  ⟨rfl, rfl⟩

/-- Witness for the amended claim C4 on concrete old and new serializations. -/
theorem save_truncates_then_writes_witness :
    "[oldresults]" ≠ ""
    ∧ fileAfterCrash "[oldresults]" "[newresults]" 1 = ""
    ∧ fileAfterCrash "[oldresults]" "[newresults]" (saveFileOps "[newresults]").length
        = "[newresults]" :=
  ⟨by decide, save_truncates_then_writes "[oldresults]" "[newresults]" (by decide)⟩

end OciInspect
